import Mathlib

/-!
Verification development for the M3U playlist pipeline in `hotrun.py`
(repository `Esmaeli/m3ulg`).

The Python functions `sort_groups`, `parse_m3u_content` and the
download / save phases of `download_process_and_save_m3u` are shallowly
embedded as executable Lean functions.  Strings are modelled as Lean
`String` (lists of characters); the Python `dict` is modelled as an
association list with insertion order and in-place value update, which
matches CPython semantics; the Python `set` used for collected group
titles is modelled as an insertion-ordered duplicate-free list (CPython
set iteration order is unspecified, and no theorem below depends on a
particular order except explicitly existential scenarios).
-/

namespace M3ulg

/-- Python whitespace characters recognised by `str.strip` (ASCII subset;
all documents considered here are ASCII). -/
def isPySpace (c : Char) : Bool :=
  c = ' ' || c = '\t' || c = '\x0a' || c = '\x0d' || c = '\x0b' || c = '\x0c'

/-- Model of Python `str.strip()` (for ASCII whitespace). -/
def pystrip (s : String) : String :=
  String.mk (((s.toList.dropWhile isPySpace).reverse.dropWhile isPySpace).reverse)

/-- Model of Python `str.lower()` (for ASCII letters). -/
def toLowerStr (s : String) : String :=
  String.mk (s.toList.map Char.toLower)

/-- Contiguous-substring test on character lists (the Python `in` operator
for strings). -/
def isInfixL (p : List Char) : List Char → Bool
  | [] => p.isEmpty
  | c :: cs => p.isPrefixOf (c :: cs) || isInfixL p cs

/-- Model of Python `p in s` for strings. -/
def pyIn (p s : String) : Bool := isInfixL p.toList s.toList

/-- Model of Python `s.startswith(pre)`. -/
def startsWithS (s pre : String) : Bool := pre.toList.isPrefixOf s.toList

/-- Split a character list on the LF character, keeping empty pieces. -/
def splitCharsOnNl : List Char → List (List Char)
  | [] => [[]]
  | c :: cs =>
    if c = '\x0a' then [] :: splitCharsOnNl cs
    else
      match splitCharsOnNl cs with
      | [] => [[c]]
      | h :: t => (c :: h) :: t

/-- Model of Python `str.splitlines()` for LF-delimited text: a trailing
newline does not produce a final empty line, and the empty string has no
lines. -/
def splitlines (s : String) : List String :=
  if s.toList.isEmpty then []
  else
    let parts := (splitCharsOnNl s.toList).map String.mk
    if s.toList.getLast? = some '\x0a' then parts.dropLast else parts

/-- Numeric value of a digit run. -/
def digitsToNat (ds : List Char) : Nat :=
  ds.foldl (fun n c => 10 * n + (c.toNat - '0'.toNat)) 0

/-- Model of Python `int(s)` on decimal literals: surrounding whitespace
is stripped, an optional sign is allowed, and anything else fails
(raises `ValueError`, modelled as `none`). -/
def pyInt (s : String) : Option Int :=
  let t := (pystrip s).toList
  let sign : Int × List Char :=
    match t with
    | '-' :: r => (-1, r)
    | '+' :: r => (1, r)
    | r => (1, r)
  if sign.2 ≠ [] ∧ sign.2.all Char.isDigit then
    some (sign.1 * (digitsToNat sign.2 : Int))
  else none

/-- Lexicographic order on character lists by code point — the comparison
Python uses on strings. -/
def lexLe : List Char → List Char → Bool
  | [], _ => true
  | _ :: _, [] => false
  | a :: as, b :: bs => if a < b then true else if a = b then lexLe as bs else false

/-- Python string `<=`. -/
def strLe (a b : String) : Bool := lexLe a.toList b.toList

/-- Insert into a sorted list (ascending w.r.t. `strLe`). -/
def insertSorted (x : String) : List String → List String
  | [] => [x]
  | y :: ys => if strLe x y then x :: y :: ys else y :: insertSorted x ys

/-- Model of Python `sorted` on strings: `strLe` is a total order on
strings, so this insertion sort is extensionally the unique ascending
stable sort Python produces. -/
def sortStrings : List String → List String
  | [] => []
  | x :: xs => insertSorted x (sortStrings xs)

/-- Python `dict` assignment `m[k] = v`: updates the value in place if
the key is present (keeping its insertion position), else appends. -/
def dictInsert (m : List (String × String)) (k v : String) : List (String × String) :=
  if k ∈ m.map Prod.fst then
    m.map (fun p => if p.1 = k then (k, v) else p)
  else m ++ [(k, v)]

/-- Python `m[k]` on an association list (empty string when absent;
the sources only index keys that are present). -/
def dictGet (m : List (String × String)) (k : String) : String :=
  match m.find? (fun p => decide (p.1 = k)) with
  | some p => p.2
  | none => ""

/-- Python `m.get(k, d)`. -/
def dictGetD (m : List (String × String)) (k d : String) : String :=
  match m.find? (fun p => decide (p.1 = k)) with
  | some p => p.2
  | none => d

/-- Python `set.add` modelled on an insertion-ordered list. -/
def insertDedup (l : List String) (x : String) : List String :=
  if x ∈ l then l else l ++ [x]

/-! ## `sort_groups` (hotrun.py lines 50-106) -/

/-- The `ir` term of priority tier 1: `ir` must occur in `g` while
`iraq` and `ireland` must not (hotrun.py line 73). -/
def condIr (g : String) : Bool :=
  pyIn "ir" g && !pyIn "iraq" g && !pyIn "ireland" g

/-- Priority-1 search conditions, in source order (hotrun.py lines 71-73). -/
def p1conds : List (String → Bool) :=
  [fun g => pyIn "iran" g, fun g => pyIn "persian" g, condIr]

/-- Priority-2 search conditions, in source order (hotrun.py lines 75-80). -/
def p2conds : List (String → Bool) :=
  [fun g => pyIn "bein" g, fun g => pyIn "sport" g, fun g => pyIn "spor" g,
   fun g => pyIn "canal+" g, fun g => pyIn "dazn" g, fun g => pyIn "paramount" g]

/-- One pass of the inner loop of `sort_groups`: collect the groups that
satisfy `cond` and are not yet processed, in list order, extending the
processed set (hotrun.py lines 84-87 / 91-94). -/
def tierPass (cond : String → Bool) : List String → List String → List String × List String
  | [], proc => ([], proc)
  | g :: gs, proc =>
    if cond g = true ∧ g ∉ proc then
      let r := tierPass cond gs (proc ++ [g])
      (g :: r.1, r.2)
    else tierPass cond gs proc

/-- The outer loop over the conditions of one tier (hotrun.py lines 83-94). -/
def runTier (conds : List (String → Bool)) (groups : List String)
    (proc : List String) : List String × List String :=
  match conds with
  | [] => ([], proc)
  | c :: cs =>
    let r1 := tierPass c groups proc
    let r2 := runTier cs groups r1.2
    (r1.1 ++ r2.1, r2.2)

/-- `normalized_map` of `sort_groups` (hotrun.py line 63): a dict from
lower-cased name to original name, later duplicates overwriting earlier
values. -/
def normalizedMap (group_names : List String) : List (String × String) :=
  group_names.foldl (fun m name => dictInsert m (toLowerStr name) name) []

/-- The three ordered segments of `sort_groups` output, in lower-cased
form: priority 1, priority 2, and the alphabetically sorted remainder
(hotrun.py lines 82-99). -/
def sortGroupsParts (group_names : List String) :
    List String × List String × List String :=
  let keys := (normalizedMap group_names).map Prod.fst
  let r1 := runTier p1conds keys []
  let r2 := runTier p2conds keys r1.2
  let other := sortStrings (keys.filter (fun g => decide (g ∉ r2.2)))
  (r1.1, r2.1, other)

/-- `sort_groups` (hotrun.py lines 50-106): concatenate the three
segments and map each lower-cased name back to its original casing. -/
def sort_groups (group_names : List String) : List String :=
  let m := normalizedMap group_names
  let parts := sortGroupsParts group_names
  (parts.1 ++ parts.2.1 ++ parts.2.2).map (dictGet m)

/-! ## `parse_m3u_content` (hotrun.py lines 110-196) -/

/-- Split a character list at its first comma (the non-greedy
`(?P<attributes_str>.*?),` of the EXTINF regex stops at the first
comma after the digits). -/
def splitAtFirstComma : List Char → Option (List Char × List Char)
  | [] => none
  | c :: cs =>
    if c = ',' then some ([], cs)
    else (splitAtFirstComma cs).map (fun p => (c :: p.1, p.2))

/-- Split a character list at its first double quote. -/
def splitAtFirstQuote : List Char → Option (List Char × List Char)
  | [] => none
  | c :: cs =>
    if c = '"' then some ([], cs)
    else (splitAtFirstQuote cs).map (fun p => (c :: p.1, p.2))

/-- Model of `re.match` against
`#EXTINF:(?P<duration>-?\d+)(?P<attributes_str>.*?),\s*(?P<name>.*)`
(hotrun.py line 135).  The duration is an optional minus sign followed
by a maximal digit run; the attribute segment runs (non-greedily) to the
first comma; the name is the rest of the line with `\s*` stripped from
the front.  Returns `(duration, attributes_str, name)` on success. -/
def matchExtinf (line : String) : Option (Int × String × String) :=
  let cs := line.toList
  if "#EXTINF:".toList.isPrefixOf cs then
    let rest := cs.drop 8
    let signed : Bool × List Char :=
      match rest with
      | '-' :: t => (true, t)
      | t => (false, t)
    let ds := signed.2.takeWhile Char.isDigit
    let rest2 := signed.2.dropWhile Char.isDigit
    if ds.isEmpty then none
    else
      match splitAtFirstComma rest2 with
      | none => none
      | some p =>
        let dur : Int :=
          if signed.1 then -(digitsToNat ds : Int) else (digitsToNat ds : Int)
        some (dur, String.mk p.1, String.mk (p.2.dropWhile isPySpace))
  else none

/-- Fuelled scan implementing
`re.findall` with pattern `([a-zA-Z0-9_\-]+)=?(?:"([^"]*)"|([^ ]*))`
(hotrun.py line 146): at each position, a maximal run of key characters,
an optional `=`, then either a quoted value (to the next quote) or a
maximal run of non-space characters.  Unmatched positions are skipped. -/
def isKeyChar (c : Char) : Bool := c.isAlphanum || c = '_' || c = '-'

def scanAttrsF : Nat → List Char → List (String × String)
  | 0, _ => []
  | _ + 1, [] => []
  | fuel + 1, c :: rest =>
    if isKeyChar c then
      let key := (c :: rest).takeWhile isKeyChar
      let r1 := (c :: rest).dropWhile isKeyChar
      let r2 := match r1 with
        | '=' :: t => t
        | t => t
      match r2 with
      | '"' :: t =>
        match splitAtFirstQuote t with
        | some p => (String.mk key, String.mk p.1) :: scanAttrsF fuel p.2
        | none =>
          (String.mk key, String.mk (r2.takeWhile (fun ch => ch ≠ ' ')))
            :: scanAttrsF fuel (r2.dropWhile (fun ch => ch ≠ ' '))
      | _ =>
        (String.mk key, String.mk (r2.takeWhile (fun ch => ch ≠ ' ')))
          :: scanAttrsF fuel (r2.dropWhile (fun ch => ch ≠ ' '))
    else scanAttrsF fuel rest

/-- Attribute extraction: run the scan, then build the attributes dict
in match order (later occurrences of a key overwrite, as in the Python
loop at hotrun.py lines 147-148; an empty quoted value falls back to the
unquoted group, which is also empty, so the stored value is the same). -/
def buildAttrs (attributes_str : String) : List (String × String) :=
  (scanAttrsF attributes_str.toList.length attributes_str.toList).foldl
    (fun m kv => dictInsert m kv.1 kv.2) []

/-- URL lookahead after a directive line (hotrun.py lines 162-175):
skip blank lines and non-channel `#` lines; the first stripped line that
is non-empty and does not start with `#` is the URL (the lines up to and
including it are consumed); hitting another `#EXTINF:` / `#EXTM3U` /
`#EXT-X-` line aborts with no URL (nothing is consumed: the outer loop
re-scans the skipped comment lines, which produce nothing). -/
def findUrl : List String → Option (String × List String)
  | [] => none
  | l :: ls =>
    let nl := pystrip l
    if nl ≠ "" ∧ startsWithS nl "#" = false then some (nl, ls)
    else if startsWithS nl "#EXTINF:" || startsWithS nl "#EXTM3U"
            || startsWithS nl "#EXT-X-" then none
    else findUrl ls

/-- A parsed channel record (the dict built at hotrun.py lines 179-186). -/
structure Channel where
  duration : Int
  name : String
  attributes : List (String × String)
  url : String
  group_title : String
  raw_extinf : String
deriving Repr, DecidableEq

/-- Result triple of `parse_m3u_content`. -/
structure ParseResult where
  channels : List Channel
  groups : List String
  found_bein : Bool
deriving Repr, DecidableEq

/-- The main parse loop of `parse_m3u_content` (hotrun.py lines 126-193),
with explicit fuel (each iteration consumes at least one line, so
`lines.length` fuel is always enough; the zero-fuel branch is
unreachable from `parse_m3u_content`).  On a line whose strip starts
with `#EXTINF:` the regex is tried; on success the attributes, group
title (default `"General"`), the `bein` marker check and the record are
produced; the URL lookahead runs and consumes lines whether or not the
regex matched. -/
def parseLoopF : Nat → List Channel → List String → Bool → List String →
    List Channel × List String × Bool
  | 0, acc, groups, fb, _ => (acc, groups, fb)
  | _ + 1, acc, groups, fb, [] => (acc, groups, fb)
  | fuel + 1, acc, groups, fb, l :: ls =>
    let line := pystrip l
    if startsWithS line "#EXTINF:" = true then
      match matchExtinf line with
      | some t =>
        let attrs := buildAttrs (pystrip t.2.1)
        let gt := dictGetD attrs "group-title" "General"
        let fb' := fb || pyIn "bein" (toLowerStr gt)
        let groups' := insertDedup groups gt
        let nm := if pystrip t.2.2 = "" then "Unnamed Channel" else pystrip t.2.2
        match findUrl ls with
        | some u =>
          parseLoopF fuel (acc ++ [⟨t.1, nm, attrs, u.1, gt, line⟩]) groups' fb' u.2
        | none =>
          parseLoopF fuel (acc ++ [⟨t.1, nm, attrs, "", gt, line⟩]) groups' fb' ls
      | none =>
        match findUrl ls with
        | some u => parseLoopF fuel acc groups fb u.2
        | none => parseLoopF fuel acc groups fb ls
    else parseLoopF fuel acc groups fb ls

/-- `parse_m3u_content` (hotrun.py lines 110-196). -/
def parse_m3u_content (content : String) : ParseResult :=
  let lines := splitlines content
  let r := parseLoopF lines.length [] [] false lines
  ⟨r.1, r.2.1, r.2.2⟩

/-! ## Download phase (hotrun.py lines 232-253) -/

/-- Outcome of the body-reading phase of `download_process_and_save_m3u`:
`ok body` when the function proceeds to parsing, `incomplete` for the
`return False` at line 250, `emptyErr` for the `ValueError` raised at
line 253. -/
inductive FetchOutcome where
  | ok (body : String)
  | incomplete (downloaded expected : Int)
  | emptyErr
deriving Repr, DecidableEq

/-- The body-reading phase (hotrun.py lines 232-253): the Content-Length
header is parsed if present (`None` on `ValueError`); every chunk is
appended to the buffer (there is no size check of any kind); afterwards
a download shorter than the declared length is an error, and an empty
download is an error unless the server declared length zero (a missing
header never equals zero, per Python `None != 0`). -/
def downloadPhase (contentLength : Option String) (chunks : List String) :
    FetchOutcome :=
  let expected : Option Int :=
    match contentLength with
    | none => none
    | some s => pyInt s
  let body := String.join chunks
  let dl : Int := (body.length : Int)
  match expected with
  | some e =>
    if dl < e then .incomplete dl e
    else if dl = 0 ∧ e ≠ 0 then .emptyErr
    else .ok body
  | none => if dl = 0 then .emptyErr else .ok body

/-! ## Serializer (hotrun.py lines 330-361) -/

/-- The records the serializer writes, in order: outer loop over the
sorted group names, inner loop over all channels, keeping those whose
`group_title` equals the group name exactly (Python `==`) and whose URL
is non-empty (hotrun.py lines 336-338). -/
def writtenRecords (sorted_group_names : List String) (channels : List Channel) :
    List Channel :=
  sorted_group_names.flatMap fun g =>
    channels.filter fun c => decide (c.group_title = g ∧ c.url ≠ "")

/-- `valid_channels_count` (hotrun.py lines 331-334): channels with a
non-empty URL. -/
def validChannelsCount (channels : List Channel) : Nat :=
  (channels.filter fun c => decide (c.url ≠ "")).length

/-- `channels_written` (hotrun.py line 355): in this model every write
succeeds, so it is the number of emitted records. -/
def channelsWritten (sorted_group_names : List String) (channels : List Channel) : Nat :=
  (writtenRecords sorted_group_names channels).length

/-! ## Atomic save (hotrun.py lines 319-395) -/

/-- The filesystem, as a map from path to file content. -/
def FS := String → Option String

/-- Creating/truncating or writing a file. -/
def fsSet (fs : FS) (p v : String) : FS := fun q => if q = p then some v else fs q

/-- Removing a file. -/
def fsRemove (fs : FS) (p : String) : FS := fun q => if q = p then none else fs q

/-- The empty filesystem. -/
def fsEmpty : FS := fun _ => none

/-- The temporary file path (hotrun.py line 325): the output path plus a
fixed `".tmp"` suffix — the same name on every attempt for a given
destination. -/
def tempPath (out : String) : String := out ++ ".tmp"

/-- How a save attempt unfolds: either every write succeeds, or an
exception interrupts the body writing after `halfWritten` bytes of
content reached the temporary file. -/
inductive WriteRun where
  | ok
  | failDuringWrite (halfWritten : String)

/-- The sequence of filesystem states during one save attempt
(hotrun.py lines 319-395).  Success: open/truncate the temp file, write
the content, `shutil.move` it onto the final path (remove temp, set
final); the `finally` cleanup finds no temp file and the final file is
kept.  Failure during writing: the temp file holds the half-written
content, the `finally` block removes it (lines 382-386), and then —
because `success` is false — the cleanup at lines 390-395 removes the
final file too if it exists. -/
def saveTrace (fs : FS) (out content : String) : WriteRun → List FS
  | .ok =>
    let f1 := fsSet fs (tempPath out) ""
    let f2 := fsSet f1 (tempPath out) content
    let f3 := fsSet (fsRemove f2 (tempPath out)) out content
    [fs, f1, f2, f3]
  | .failDuringWrite hw =>
    let f1 := fsSet fs (tempPath out) ""
    let f2 := fsSet f1 (tempPath out) hw
    let f3 := fsRemove f2 (tempPath out)
    let f4 := if (f3 out).isSome then fsRemove f3 out else f3
    [fs, f1, f2, f3, f4]

/-- Final filesystem and success flag of one save attempt. -/
def saveResult (fs : FS) (out content : String) : WriteRun → FS × Bool
  | .ok =>
    let f2 := fsSet (fsSet fs (tempPath out) "") (tempPath out) content
    (fsSet (fsRemove f2 (tempPath out)) out content, true)
  | .failDuringWrite hw =>
    let f3 := fsRemove (fsSet (fsSet fs (tempPath out) "") (tempPath out) hw) (tempPath out)
    (if (f3 out).isSome then fsRemove f3 out else f3, false)

/-! ## General helper lemmas -/

theorem toList_append (a b : String) : (a ++ b).toList = a.toList ++ b.toList := by
  show (a ++ b).data = a.data ++ b.data
  exact String.data_append a b

theorem isPrefixOf_append_self (a b : List Char) : a.isPrefixOf (a ++ b) = true :=
  List.isPrefixOf_iff_prefix.mpr (List.prefix_append a b)

theorem startsWithS_append (pre rest : String) : startsWithS (pre ++ rest) pre = true := by
  unfold startsWithS
  rw [toList_append]
  exact isPrefixOf_append_self _ _

/-! ## Claim C1 — size ceiling -/

/-- C1 counterexample: the claim asserts that for every byte ceiling `C`
a body exceeding `C` by one byte is never returned in full.  The code
has no ceiling at all: with `C = 1`, a two-byte body (no Content-Length
header) is buffered whole and returned in full. -/
theorem C1_counterexample :
    downloadPhase none ["ab"] = .ok "ab" ∧ 1 < "ab".length := by decide

/-- C1 amended: the fetcher imposes no byte ceiling — whenever the
download phase succeeds, the returned body is the full concatenation of
every received chunk, whatever its size; no `TooLarge` outcome exists. -/
theorem C1_no_ceiling (contentLength : Option String) (chunks : List String)
    (b : String) (h : downloadPhase contentLength chunks = .ok b) :
    b = String.join chunks := by
  unfold downloadPhase at h
  rcases contentLength with _ | s
  · simp only at h
    split at h
    · exact absurd h (by simp)
    · exact (FetchOutcome.ok.injEq .. ▸ h).symm
  · simp only at h
    rcases hp : pyInt s with _ | e <;> rw [hp] at h <;> simp only at h
    · split at h
      · exact absurd h (by simp)
      · exact (FetchOutcome.ok.injEq .. ▸ h).symm
    · split at h
      · exact absurd h (by simp)
      · split at h
        · exact absurd h (by simp)
        · exact (FetchOutcome.ok.injEq .. ▸ h).symm

/-- C1 witness. -/
theorem C1_no_ceiling_witness :
    downloadPhase none ["x", "y"] = .ok "xy" ∧ "xy" = String.join ["x", "y"] :=
  ⟨by decide, C1_no_ceiling none ["x", "y"] "xy" (by decide)⟩

/-! ## Claim C4 — incomplete downloads -/

/-- C4 counterexample: a fetch that declares `Content-Length: 10` but
delivers only 5 bytes is rejected (`return False` at hotrun.py line
250); the body is discarded, not returned flagged `Incomplete`. -/
theorem C4_counterexample :
    downloadPhase (some "10") ["hello"] = .incomplete 5 10 := by decide

/-- C4 amended: a download whose byte count is less than a declared
`Content-Length` is treated as a fatal error — the fetch fails and the
body is never handed to the rest of the pipeline. -/
theorem C4_incomplete_fatal (s : String) (chunks : List String) (e : Int)
    (h1 : pyInt s = some e)
    (h2 : ((String.join chunks).length : Int) < e) :
    downloadPhase (some s) chunks = .incomplete ((String.join chunks).length : Int) e := by
  unfold downloadPhase
  dsimp only
  rw [h1]
  simp only [if_pos h2]

/-- C4 witness. -/
theorem C4_incomplete_fatal_witness :
    pyInt "10" = some 10 ∧ ((String.join ["hello"]).length : Int) < 10 ∧
      downloadPhase (some "10") ["hello"] =
        .incomplete ((String.join ["hello"]).length : Int) 10 :=
  ⟨by decide, by decide, C4_incomplete_fatal "10" ["hello"] 10 (by decide) (by decide)⟩

/-! ## Claim C8 — the `ir` exclusion rule -/

/-- C8: on the input set containing `"Ireland News"` and `"IR General"`
(either iteration order), the two-letter `ir` term rejects
`"Ireland News"` (its excluded substring `"ireland"` occurs), which
falls to the residual alphabetical segment, while `"IR General"` is
captured by the `ir` term of tier 1 and therefore precedes it in the
output. -/
theorem C8_exclusion :
    condIr (toLowerStr "Ireland News") = false
    ∧ condIr (toLowerStr "IR General") = true
    ∧ toLowerStr "Ireland News" ∈ (sortGroupsParts ["Ireland News", "IR General"]).2.2
    ∧ toLowerStr "IR General" ∈ (sortGroupsParts ["Ireland News", "IR General"]).1
    ∧ sort_groups ["Ireland News", "IR General"] = ["IR General", "Ireland News"]
    ∧ sort_groups ["IR General", "Ireland News"] = ["IR General", "Ireland News"] := by
  decide

/-! ## Claim C10 — case-collision channel loss -/

/-- A playlist whose two channels carry group titles that differ only in
letter case, both with non-empty URLs. -/
def caseCollisionDoc : String :=
  "#EXTM3U\n#EXTINF:-1 group-title=\"News\",Alpha\nhttp://a.example/1\n#EXTINF:-1 group-title=\"NEWS\",Beta\nhttp://b.example/2\n"

/-- C10: the ordering policy deduplicates case-insensitively, keeping
one casing per lower-cased name, while the serializer matches group
titles by exact case-sensitive equality; on `caseCollisionDoc` the
computed order retains only `"NEWS"`, so the channel in group `"News"`
is silently omitted from the written output despite its non-empty URL,
and the written count (1) differs from the eligible count (2), which is
exactly the count-mismatch warning condition at hotrun.py line 360. -/
theorem C10_case_collision :
    (parse_m3u_content caseCollisionDoc).groups = ["News", "NEWS"]
    ∧ sort_groups (parse_m3u_content caseCollisionDoc).groups = ["NEWS"]
    ∧ (∃ c ∈ (parse_m3u_content caseCollisionDoc).channels,
        c.url ≠ "" ∧
          c ∉ writtenRecords (sort_groups (parse_m3u_content caseCollisionDoc).groups)
              (parse_m3u_content caseCollisionDoc).channels)
    ∧ channelsWritten (sort_groups (parse_m3u_content caseCollisionDoc).groups)
        (parse_m3u_content caseCollisionDoc).channels = 1
    ∧ validChannelsCount (parse_m3u_content caseCollisionDoc).channels = 2 := by
  decide

/-! ## Claim C5 — invalid duration fields -/

/-- C5 counterexample: the claim asserts that a directive line with a
non-integer duration still yields a record with duration `-1`.  On this
document the directive line `#EXTINF:abc,Name` fails the EXTINF regex
(whose duration group `-?\d+` requires digits), so NO record is produced
at all — the `-1` fallback at hotrun.py line 140 is unreachable. -/
theorem C5_counterexample :
    matchExtinf "#EXTINF:abc,Name" = none
    ∧ (parse_m3u_content "#EXTM3U\n#EXTINF:abc,Name\nhttp://example.com/s").channels
        = [] := by
  decide

/-- The duration field begins like an integer literal: an optional minus
sign followed by a digit.  This is what `-?\d+` requires of the text
following `#EXTINF:`. -/
def startsWithIntLit : List Char → Bool
  | [] => false
  | c :: cs =>
    if c = '-' then
      match cs with
      | [] => false
      | c2 :: _ => c2.isDigit
    else c.isDigit

theorem matchExtinf_bad_duration (rest : String)
    (h1 : startsWithIntLit rest.toList = false) :
    matchExtinf ("#EXTINF:" ++ rest) = none := by
  have hpre : ("#EXTINF:".toList).isPrefixOf (("#EXTINF:" ++ rest).toList) = true := by
    rw [toList_append]; exact isPrefixOf_append_self _ _
  have hdrop : (("#EXTINF:" ++ rest).toList).drop 8 = rest.toList := by
    rw [toList_append]
    have h8 : ("#EXTINF:".toList).length = 8 := by decide
    rw [← h8, List.drop_left]
  unfold matchExtinf
  simp only [hpre, if_true, hdrop]
  rcases hr : rest.toList with _ | ⟨c, t⟩
  · simp
  · by_cases hc : c = '-'
    · subst hc
      rcases t with _ | ⟨c2, t2⟩
      · simp
      · rw [hr] at h1
        have hd : c2.isDigit = false := by
          simpa [startsWithIntLit] using h1
        simp [List.takeWhile, hd]
    · rw [hr] at h1
      have hd : c.isDigit = false := by
        simpa [startsWithIntLit, hc] using h1
      simp [List.takeWhile, hd, hc]

/-- C5 amended: a directive line whose duration field is not a valid
(optionally negative) integer literal fails the EXTINF regex entirely,
so the parser produces NO channel record for it — the `-1` fallback at
hotrun.py lines 139-140 is dead code (the regex group `-?\d+` only ever
captures valid integer literals). -/
theorem C5_invalid_duration_no_record (rest : String)
    (h1 : startsWithIntLit rest.toList = false)
    (h2 : pystrip ("#EXTINF:" ++ rest) = "#EXTINF:" ++ rest)
    (h3 : splitlines ("#EXTINF:" ++ rest) = ["#EXTINF:" ++ rest]) :
    matchExtinf ("#EXTINF:" ++ rest) = none
    ∧ (parse_m3u_content ("#EXTINF:" ++ rest)).channels = [] := by
  have hm := matchExtinf_bad_duration rest h1
  refine ⟨hm, ?_⟩
  unfold parse_m3u_content
  rw [h3]
  show (parseLoopF 1 [] [] false ["#EXTINF:" ++ rest]).1 = []
  unfold parseLoopF
  rw [h2]
  simp [startsWithS_append, hm, findUrl, parseLoopF]

/-- C5 witness. -/
theorem C5_invalid_duration_no_record_witness :
    startsWithIntLit ("abc,Name".toList) = false
    ∧ pystrip ("#EXTINF:" ++ "abc,Name") = "#EXTINF:" ++ "abc,Name"
    ∧ splitlines ("#EXTINF:" ++ "abc,Name") = ["#EXTINF:" ++ "abc,Name"]
    ∧ (parse_m3u_content ("#EXTINF:" ++ "abc,Name")).channels = [] :=
  ⟨by decide, by decide, by decide,
    (C5_invalid_duration_no_record "abc,Name" (by decide) (by decide) (by decide)).2⟩

/-! ## Claims C2 / C3 — ordering policy as a function of the input -/

/-- C2 counterexample: two permutations of the same two-element set of
group titles produce different output orders — the priority tiers keep
the (insertion-ordered) working-list order, which follows the input
order; there is no sorted working list before tier matching. -/
theorem C2_counterexample :
    (["iran tv", "iran sports"] : List String).Perm ["iran sports", "iran tv"]
    ∧ sort_groups ["iran tv", "iran sports"] = ["iran tv", "iran sports"]
    ∧ sort_groups ["iran sports", "iran tv"] = ["iran sports", "iran tv"]
    ∧ sort_groups ["iran tv", "iran sports"] ≠ sort_groups ["iran sports", "iran tv"] := by
  exact ⟨by decide, by decide, by decide, by decide⟩

/-- C3 counterexample: two input titles that differ only in letter case
are collapsed by the case-insensitive `normalized_map` (hotrun.py line
63) — the output of `sort_groups` keeps only one of them, so it is not a
permutation of the input. -/
theorem C3_counterexample :
    sort_groups ["News", "NEWS"] = ["NEWS"]
    ∧ "News" ∉ sort_groups ["News", "NEWS"] := by
  exact ⟨by decide, by decide⟩

/-- Pairwise-distinct lower-casings: no two input group titles collide
case-insensitively. -/
def lowerDistinct (l : List String) : Prop := (l.map toLowerStr).Nodup

instance (l : List String) : Decidable (lowerDistinct l) :=
  List.nodupDecidable _

theorem insertSorted_perm (x : String) (l : List String) :
    (insertSorted x l).Perm (x :: l) := by
  induction l with
  | nil => exact List.Perm.refl _
  | cons y ys ih =>
    unfold insertSorted
    split
    · exact List.Perm.refl _
    · exact (ih.cons y).trans (List.Perm.swap x y ys)

theorem sortStrings_perm (l : List String) : (sortStrings l).Perm l := by
  induction l with
  | nil => exact List.Perm.refl _
  | cons x xs ih => exact (insertSorted_perm x (sortStrings xs)).trans (ih.cons x)

theorem tierPass_proc (cond : String → Bool) (gs : List String) :
    ∀ proc, (tierPass cond gs proc).2 = proc ++ (tierPass cond gs proc).1 := by
  induction gs with
  | nil => intro proc; simp [tierPass]
  | cons g gs ih =>
    intro proc
    unfold tierPass
    split
    · simp only
      rw [ih (proc ++ [g])]
      simp
    · exact ih proc

theorem tierPass_mem (cond : String → Bool) (gs : List String) :
    ∀ proc x, x ∈ (tierPass cond gs proc).1 → x ∈ gs ∧ x ∉ proc := by
  induction gs with
  | nil => intro proc x hx; simp [tierPass] at hx
  | cons g gs ih =>
    intro proc x hx
    unfold tierPass at hx
    split at hx
    · rename_i hcond
      simp only [List.mem_cons] at hx
      rcases hx with rfl | hx
      · exact ⟨List.mem_cons_self _ _, hcond.2⟩
      · have h := ih (proc ++ [g]) x hx
        exact ⟨List.mem_cons_of_mem _ h.1,
          fun hp => h.2 (List.mem_append_left _ hp)⟩
    · have h := ih proc x hx
      exact ⟨List.mem_cons_of_mem _ h.1, h.2⟩

theorem tierPass_proc_nodup (cond : String → Bool) (gs : List String) :
    ∀ proc, proc.Nodup → ((tierPass cond gs proc).2).Nodup := by
  induction gs with
  | nil => intro proc h; simpa [tierPass] using h
  | cons g gs ih =>
    intro proc h
    unfold tierPass
    split
    · rename_i hcond
      exact ih (proc ++ [g]) (by simp [List.nodup_append, h, hcond.2])
    · exact ih proc h

theorem runTier_proc (conds : List (String → Bool)) (gs : List String) :
    ∀ proc, (runTier conds gs proc).2 = proc ++ (runTier conds gs proc).1 := by
  induction conds with
  | nil => intro proc; simp [runTier]
  | cons c cs ih =>
    intro proc
    unfold runTier
    simp only
    rw [ih (tierPass c gs proc).2, tierPass_proc]
    simp

theorem runTier_mem (conds : List (String → Bool)) (gs : List String) :
    ∀ proc x, x ∈ (runTier conds gs proc).1 → x ∈ gs ∧ x ∉ proc := by
  induction conds with
  | nil => intro proc x hx; simp [runTier] at hx
  | cons c cs ih =>
    intro proc x hx
    unfold runTier at hx
    simp only [List.mem_append] at hx
    rcases hx with hx | hx
    · exact tierPass_mem c gs proc x hx
    · have h := ih (tierPass c gs proc).2 x hx
      refine ⟨h.1, fun hp => h.2 ?_⟩
      rw [tierPass_proc]
      exact List.mem_append_left _ hp

theorem runTier_proc_nodup (conds : List (String → Bool)) (gs : List String) :
    ∀ proc, proc.Nodup → ((runTier conds gs proc).2).Nodup := by
  induction conds with
  | nil => intro proc h; simpa [runTier] using h
  | cons c cs ih =>
    intro proc h
    unfold runTier
    exact ih (tierPass c gs proc).2 (tierPass_proc_nodup c gs proc h)

theorem dictInsert_not_mem (m : List (String × String)) (k v : String)
    (h : k ∉ m.map Prod.fst) : dictInsert m k v = m ++ [(k, v)] := by
  unfold dictInsert
  rw [if_neg h]

theorem foldl_dictInsert_eq (l : List String) :
    ∀ m : List (String × String),
      (∀ x ∈ l, toLowerStr x ∉ m.map Prod.fst) →
      (l.map toLowerStr).Nodup →
      l.foldl (fun m name => dictInsert m (toLowerStr name) name) m
        = m ++ l.map (fun n => (toLowerStr n, n)) := by
  induction l with
  | nil => intro m _ _; simp
  | cons a l ih =>
    intro m hdisj hnodup
    simp only [List.foldl_cons]
    rw [dictInsert_not_mem m _ _ (hdisj a (List.mem_cons_self _ _))]
    rw [ih (m ++ [(toLowerStr a, a)]) ?_ (List.Nodup.of_cons hnodup)]
    · simp
    · intro x hx
      simp only [List.map_append, List.mem_append, List.map_cons, List.map_nil]
      rintro (hm | hs)
      · exact hdisj x (List.mem_cons_of_mem _ hx) hm
      · simp only [List.mem_singleton] at hs
        have : toLowerStr a ∈ l.map toLowerStr :=
          hs ▸ List.mem_map_of_mem toLowerStr hx
        exact (List.nodup_cons.mp hnodup).1 this

theorem normalizedMap_eq (l : List String) (h : lowerDistinct l) :
    normalizedMap l = l.map (fun n => (toLowerStr n, n)) := by
  unfold normalizedMap
  simpa using foldl_dictInsert_eq l [] (by simp) h

theorem map_dictGet (l : List String) (h : lowerDistinct l) :
    (l.map toLowerStr).map (dictGet (l.map fun n => (toLowerStr n, n))) = l := by
  induction l with
  | nil => simp
  | cons a l ih =>
    have hn : toLowerStr a ∉ l.map toLowerStr := (List.nodup_cons.mp h).1
    simp only [List.map_cons]
    have hhead :
        dictGet ((toLowerStr a, a) :: l.map fun n => (toLowerStr n, n)) (toLowerStr a)
          = a := by
      simp [dictGet, List.find?]
    rw [hhead]
    have htail :
        (l.map toLowerStr).map
            (dictGet ((toLowerStr a, a) :: l.map fun n => (toLowerStr n, n)))
          = (l.map toLowerStr).map (dictGet (l.map fun n => (toLowerStr n, n))) := by
      apply List.map_congr_left
      intro x hx
      have hne : ¬ (toLowerStr a = x) := fun he => hn (he ▸ hx)
      simp [dictGet, List.find?, hne]
    rw [htail, ih (List.Nodup.of_cons h)]

theorem perm_of_nodup_mem_iff {l₁ l₂ : List String} (h₁ : l₁.Nodup) (h₂ : l₂.Nodup)
    (h : ∀ x, x ∈ l₁ ↔ x ∈ l₂) : l₁.Perm l₂ :=
  (h₁.subperm fun {a} ha => (h a).mp ha).antisymm
    (h₂.subperm fun {a} ha => (h a).mpr ha)

theorem parts_perm (kl : List String) (hk : kl.Nodup) :
    ((runTier p1conds kl []).1
      ++ ((runTier p2conds kl (runTier p1conds kl []).2).1
      ++ sortStrings (kl.filter fun g =>
          decide (g ∉ (runTier p2conds kl (runTier p1conds kl []).2).2)))).Perm kl := by
  have hproc1 : (runTier p1conds kl []).2 = (runTier p1conds kl []).1 := by
    rw [runTier_proc]; simp
  have hproc2 : (runTier p2conds kl (runTier p1conds kl []).2).2
      = (runTier p1conds kl []).1 ++ (runTier p2conds kl (runTier p1conds kl []).2).1 := by
    rw [runTier_proc, hproc1]
  have hnodup2 : ((runTier p2conds kl (runTier p1conds kl []).2).2).Nodup :=
    runTier_proc_nodup _ _ _ (runTier_proc_nodup _ _ _ List.nodup_nil)
  have hsort := sortStrings_perm (kl.filter fun g =>
      decide (g ∉ (runTier p2conds kl (runTier p1conds kl []).2).2))
  refine List.Perm.trans (List.Perm.append_left _ (List.Perm.append_left _ hsort)).symm.symm ?_
  rw [← List.append_assoc, ← hproc2]
  apply perm_of_nodup_mem_iff
  · apply List.Nodup.append hnodup2 (hk.filter _)
    intro x hx hf
    have hxf := (List.mem_filter.mp hf).2
    simp only [decide_eq_true_eq] at hxf
    exact hxf hx
  · exact hk
  · intro x
    constructor
    · intro hx
      rcases List.mem_append.mp hx with hx | hx
      · rw [hproc2] at hx
        rcases List.mem_append.mp hx with hx | hx
        · exact (runTier_mem _ _ _ _ hx).1
        · exact (runTier_mem _ _ _ _ hx).1
      · exact (List.mem_filter.mp hx).1
    · intro hx
      by_cases hp : x ∈ (runTier p2conds kl (runTier p1conds kl []).2).2
      · exact List.mem_append_left _ hp
      · exact List.mem_append_right _
          (List.mem_filter.mpr ⟨hx, by simpa using hp⟩)

theorem sort_groups_perm (l : List String) (h : lowerDistinct l) :
    (sort_groups l).Perm l := by
  have hm := normalizedMap_eq l h
  have hkeys : (normalizedMap l).map Prod.fst = l.map toLowerStr := by
    rw [hm, List.map_map]
    rfl
  have hk : (l.map toLowerStr).Nodup := h
  unfold sort_groups sortGroupsParts
  simp only [hkeys]
  have hA := parts_perm (l.map toLowerStr) hk
  rw [← List.append_assoc] at hA
  have hB := hA.map (dictGet (normalizedMap l))
  refine hB.trans ?_
  rw [hm, map_dictGet l h]

/-- C3 amended: when all input group titles have pairwise-distinct
lower-casings (in particular, no two titles differ only in letter
case), the output of `sort_groups` is a permutation of the input —
every title appears exactly once and nothing else appears.  (Titles
that differ only in case are collapsed to one representative, per
`C3_counterexample`.) -/
theorem C3_perm_of_lowerDistinct (l : List String) (h : lowerDistinct l) :
    (sort_groups l).Perm l :=
  sort_groups_perm l h

/-- C3 witness. -/
theorem C3_perm_of_lowerDistinct_witness :
    lowerDistinct ["Bein Sports", "Alpha"]
    ∧ (sort_groups ["Bein Sports", "Alpha"]).Perm ["Bein Sports", "Alpha"] :=
  ⟨by decide, C3_perm_of_lowerDistinct ["Bein Sports", "Alpha"] (by decide)⟩

/-- C2 amended: `sort_groups` is a pure function, so running it twice on
the same input list yields identical output; but its output ORDER is a
function of the input list, not of the input set — two permutations of
the same set of titles (with pairwise-distinct lower-casings) are only
guaranteed to produce outputs that are permutations of each other
(`C2_counterexample` exhibits two permuted inputs with different output
orders). -/
theorem C2_perm_stable (l₁ l₂ : List String) (h : lowerDistinct l₁)
    (hp : l₁.Perm l₂) :
    sort_groups l₁ = sort_groups l₁ ∧ (sort_groups l₁).Perm (sort_groups l₂) := by
  have h₂ : lowerDistinct l₂ := ((hp.map toLowerStr).nodup_iff).mp h
  exact ⟨rfl, (sort_groups_perm l₁ h).trans (hp.trans (sort_groups_perm l₂ h₂).symm)⟩

/-- C2 witness. -/
theorem C2_perm_stable_witness :
    lowerDistinct ["Alpha", "Bein 1"]
    ∧ (["Alpha", "Bein 1"] : List String).Perm ["Bein 1", "Alpha"]
    ∧ (sort_groups ["Alpha", "Bein 1"]).Perm (sort_groups ["Bein 1", "Alpha"]) :=
  ⟨by decide, by decide,
    (C2_perm_stable ["Alpha", "Bein 1"] ["Bein 1", "Alpha"] (by decide) (by decide)).2⟩

/-! ## Claim C9 — required-marker detection -/

/-- Some collected group title contains the marker `"bein"`
case-insensitively. -/
def beinAny (gs : List String) : Bool := gs.any fun g => pyIn "bein" (toLowerStr g)

theorem beinAny_insertDedup (gs : List String) (x : String) :
    beinAny (insertDedup gs x) = (beinAny gs || pyIn "bein" (toLowerStr x)) := by
  unfold insertDedup beinAny
  split
  · rename_i hx
    cases hb : pyIn "bein" (toLowerStr x) with
    | false => simp
    | true =>
      simp only [Bool.or_true]
      exact List.any_eq_true.mpr ⟨x, hx, hb⟩
  · simp [List.any_append]

theorem parseLoopF_found_bein (fuel : Nat) :
    ∀ (lines : List String) (acc : List Channel) (groups : List String) (fb : Bool),
      fb = beinAny groups →
      (parseLoopF fuel acc groups fb lines).2.2
        = beinAny (parseLoopF fuel acc groups fb lines).2.1 := by
  induction fuel with
  | zero => intro lines acc groups fb h; simpa [parseLoopF] using h
  | succ fuel ih =>
    intro lines acc groups fb h
    match lines with
    | [] => simpa [parseLoopF] using h
    | l :: ls =>
      unfold parseLoopF
      dsimp only
      by_cases hsw : startsWithS (pystrip l) "#EXTINF:" = true
      · rw [if_pos hsw]
        cases hm : matchExtinf (pystrip l) with
        | some t =>
          dsimp only
          cases hu : findUrl ls with
          | some u =>
            apply ih
            rw [h, beinAny_insertDedup]
          | none =>
            apply ih
            rw [h, beinAny_insertDedup]
        | none =>
          cases hu : findUrl ls with
          | some u => exact ih _ _ _ _ h
          | none => exact ih _ _ _ _ h
      · rw [if_neg hsw]
        exact ih _ _ _ _ h

/-- C9: the acceptance flag is exactly a case-insensitive substring test
of the marker `"bein"` against the full set of collected group titles —
it is determined by the completed parse (no per-line short-circuit
changes the outcome), and any document whose collected groups include
`"BeIN Sports HD"` (wherever it appears) has `found_bein = true`. -/
theorem C9_marker (content : String) :
    ((parse_m3u_content content).found_bein = true
      ↔ ∃ g ∈ (parse_m3u_content content).groups, pyIn "bein" (toLowerStr g) = true)
    ∧ ("BeIN Sports HD" ∈ (parse_m3u_content content).groups →
        (parse_m3u_content content).found_bein = true) := by
  have hfb : (parse_m3u_content content).found_bein
      = beinAny (parse_m3u_content content).groups := by
    unfold parse_m3u_content
    exact parseLoopF_found_bein _ _ [] [] false rfl
  constructor
  · rw [hfb]
    exact List.any_eq_true
  · intro hg
    rw [hfb]
    exact List.any_eq_true.mpr ⟨"BeIN Sports HD", hg, by decide⟩

/-- A document whose `"BeIN Sports HD"` group sits in the middle of the
playlist. -/
def beinDoc : String :=
  "#EXTM3U\n#EXTINF:0 group-title=\"Movies\",M1\nhttp://m.example/1\n#EXTINF:0 group-title=\"BeIN Sports HD\",Chan\nhttp://x.example/0\n#EXTINF:0 group-title=\"Docs\",D1\nhttp://d.example/1\n"

/-- C9 witness. -/
theorem C9_marker_witness : (parse_m3u_content beinDoc).found_bein = true :=
  (C9_marker beinDoc).2 (by decide)

/-! ## Claim C6 — records exist iff recognized; output membership -/

/-- A line whose stripped text is a recognized directive: it starts with
`#EXTINF:` and the EXTINF regex matches. -/
def isRecognizedDirective (l : String) : Bool :=
  startsWithS (pystrip l) "#EXTINF:" && (matchExtinf (pystrip l)).isSome

theorem startsWithS_hash_of_extinf (s : String)
    (h : startsWithS s "#EXTINF:" = true) : startsWithS s "#" = true := by
  unfold startsWithS at h ⊢
  rw [ List.isPrefixOf_iff_prefix] at h ⊢
  exact List.IsPrefix.trans (by decide) h

theorem findUrl_length (ls : List String) :
    ∀ u rest, findUrl ls = some (u, rest) → rest.length ≤ ls.length := by
  induction ls with
  | nil => intro u rest h; simp [findUrl] at h
  | cons l ls ih =>
    intro u rest h
    unfold findUrl at h
    dsimp only at h
    split at h
    · simp only [Option.some.injEq, Prod.mk.injEq] at h
      rw [← h.2]
      exact Nat.le_succ _
    · split at h
      · exact absurd h (by simp)
      · exact le_trans (ih u rest h) (Nat.le_succ _)

theorem findUrl_filter (ls : List String) :
    ∀ u rest, findUrl ls = some (u, rest) →
      ls.filter isRecognizedDirective = rest.filter isRecognizedDirective := by
  induction ls with
  | nil => intro u rest h; simp [findUrl] at h
  | cons l ls ih =>
    intro u rest h
    unfold findUrl at h
    dsimp only at h
    split at h
    · rename_i hc
      simp only [Option.some.injEq, Prod.mk.injEq] at h
      have hpred : isRecognizedDirective l = false := by
        unfold isRecognizedDirective
        cases hsw : startsWithS (pystrip l) "#EXTINF:" with
        | false => simp
        | true => exact absurd (startsWithS_hash_of_extinf _ hsw) (by simp [hc.2])
      rw [List.filter_cons_of_neg (by simp [hpred]), ← h.2]
    · split at h
      · exact absurd h (by simp)
      · rename_i hc hc2
        have hpred : isRecognizedDirective l = false := by
          unfold isRecognizedDirective
          have h3 : (startsWithS (pystrip l) "#EXTINF:" = false
              ∧ startsWithS (pystrip l) "#EXTM3U" = false)
              ∧ startsWithS (pystrip l) "#EXT-X-" = false := by simpa using hc2
          simp [h3.1.1]
        rw [List.filter_cons_of_neg (by simp [hpred])]
        exact ih u rest h

theorem parseLoopF_length (fuel : Nat) :
    ∀ (lines : List String) (acc : List Channel) (groups : List String) (fb : Bool),
      lines.length ≤ fuel →
      ((parseLoopF fuel acc groups fb lines).1).length
        = acc.length + (lines.filter isRecognizedDirective).length := by
  induction fuel with
  | zero =>
    intro lines acc groups fb h
    have hnil : lines = [] := List.eq_nil_of_length_eq_zero (Nat.le_zero.mp h)
    subst hnil
    simp [parseLoopF]
  | succ fuel ih =>
    intro lines acc groups fb h
    match lines with
    | [] => simp [parseLoopF]
    | l :: ls =>
      have hls : ls.length ≤ fuel := by simpa using h
      unfold parseLoopF
      by_cases hsw : startsWithS (pystrip l) "#EXTINF:" = true
      · rw [if_pos hsw]
        have hpredT : ∀ t, matchExtinf (pystrip l) = some t →
            isRecognizedDirective l = true := by
          intro t ht
          simp [isRecognizedDirective, hsw, ht]
        cases hm : matchExtinf (pystrip l) with
        | some t =>
          simp only
          cases hu : findUrl ls with
          | some u =>
            obtain ⟨u1, rest⟩ := u
            rw [ih rest _ _ _ (le_trans (findUrl_length ls u1 rest hu) hls)]
            rw [List.filter_cons_of_pos (hpredT t hm), ← findUrl_filter ls u1 rest hu]
            simp
            omega
          | none =>
            rw [ih ls _ _ _ hls, List.filter_cons_of_pos (hpredT t hm)]
            simp
            omega
        | none =>
          have hpredF : isRecognizedDirective l = false := by
            simp [isRecognizedDirective, hm]
          cases hu : findUrl ls with
          | some u =>
            obtain ⟨u1, rest⟩ := u
            rw [ih rest _ _ _ (le_trans (findUrl_length ls u1 rest hu) hls)]
            rw [List.filter_cons_of_neg (by simp [hpredF]), ← findUrl_filter ls u1 rest hu]
          | none =>
            rw [ih ls _ _ _ hls, List.filter_cons_of_neg (by simp [hpredF])]
      · rw [if_neg hsw]
        have hpredF : isRecognizedDirective l = false := by
          unfold isRecognizedDirective
          simp only [Bool.and_eq_false_iff]
          left
          simpa using hsw
        rw [ih ls _ _ _ hls, List.filter_cons_of_neg (by simp [hpredF])]

/-- C6 counterexample: the claim says the serializer emits exactly the
records with a non-empty URL.  On this parse result two group titles
differ only in case; the ordering policy keeps one casing, the
serializer compares case-sensitively, and a record with a non-empty URL
is not emitted. -/
theorem C6_counterexample :
    ∃ c ∈ (parse_m3u_content "#EXTM3U\n#EXTINF:-1 group-title=\"Kids\",One\nhttp://k.example/1\n#EXTINF:-1 group-title=\"KIDS\",Two\nhttp://k.example/2\n").channels,
      c.url ≠ "" ∧
        c ∉ writtenRecords
            (sort_groups (parse_m3u_content "#EXTM3U\n#EXTINF:-1 group-title=\"Kids\",One\nhttp://k.example/1\n#EXTINF:-1 group-title=\"KIDS\",Two\nhttp://k.example/2\n").groups)
            (parse_m3u_content "#EXTM3U\n#EXTINF:-1 group-title=\"Kids\",One\nhttp://k.example/1\n#EXTINF:-1 group-title=\"KIDS\",Two\nhttp://k.example/2\n").channels := by
  decide

/-- C6 amended: (1) a channel record exists in the parse output exactly
per recognized directive line — the record count equals the number of
lines whose stripped text starts with `#EXTINF:` and matches the EXTINF
regex, regardless of whether a URL followed; (2) the serializer emits
exactly those records whose URL is non-empty AND whose group title
appears verbatim (case-sensitively) in the computed group order — in
particular a record with an empty URL never appears in the output. -/
theorem C6_records_and_output :
    (∀ content : String,
      ((parse_m3u_content content).channels).length
        = ((splitlines content).filter isRecognizedDirective).length)
    ∧ (∀ (sg : List String) (chans : List Channel) (c : Channel),
        c ∈ writtenRecords sg chans
          ↔ c ∈ chans ∧ c.url ≠ "" ∧ c.group_title ∈ sg) := by
  constructor
  · intro content
    unfold parse_m3u_content
    simpa using
      parseLoopF_length (splitlines content).length (splitlines content) [] [] false le_rfl
  · intro sg chans c
    unfold writtenRecords
    simp only [List.mem_flatMap, List.mem_filter, decide_eq_true_eq]
    constructor
    · rintro ⟨g, hg, hc, hcg, hcu⟩
      exact ⟨hc, hcu, hcg ▸ hg⟩
    · rintro ⟨hc, hcu, hgs⟩
      exact ⟨c.group_title, hgs, hc, rfl, hcu⟩

/-! ## Claim C7 — commit protocol -/

theorem out_ne_temp (out : String) : out ≠ tempPath out := by
  intro h
  have hl := congrArg String.length h
  rw [tempPath, String.length_append] at hl
  have h4 : ".tmp".length = 4 := rfl
  omega

/-- C7 counterexample: the claim says that on any failure during writing
the final destination is left unchanged (absent, or holding its prior
content).  Here the destination holds `"old"` before the attempt; a
failure during body writing triggers the cleanup at hotrun.py lines
390-395, which DELETES the prior file — afterwards the destination is
absent, not unchanged. -/
theorem C7_counterexample :
    (fsSet fsEmpty "out.m3u" "old") "out.m3u" = some "old"
    ∧ (saveResult (fsSet fsEmpty "out.m3u" "old") "out.m3u" "new"
        (.failDuringWrite "half")).1 "out.m3u" = none
    ∧ tempPath "out.m3u" = "out.m3u.tmp" := by
  refine ⟨by decide, by decide, by decide⟩

/-- C7 amended: the commit uses a FIXED temporary name (destination plus
`".tmp"`, the same on every attempt, not unique per process/attempt);
on success the full content is moved onto the destination in one step
and the temporary file is gone; on a failure during writing both the
temporary file AND any file at the destination are removed — the
destination never holds partially written content at any point of
either run (the traces show it holds only its prior content, the
complete new content, or nothing), but prior content at the destination
is NOT preserved across a failed attempt. -/
theorem C7_commit_behavior (fs : FS) (out content hw : String) :
    (saveResult fs out content .ok).1 out = some content
    ∧ (saveResult fs out content .ok).1 (tempPath out) = none
    ∧ (saveResult fs out content .ok).2 = true
    ∧ (saveResult fs out content (.failDuringWrite hw)).1 out = none
    ∧ (saveResult fs out content (.failDuringWrite hw)).1 (tempPath out) = none
    ∧ (saveResult fs out content (.failDuringWrite hw)).2 = false
    ∧ (saveTrace fs out content .ok).map (fun s => s out)
        = [fs out, fs out, fs out, some content]
    ∧ (saveTrace fs out content (.failDuringWrite hw)).map (fun s => s out)
        = [fs out, fs out, fs out, fs out, none] := by
  have hne := out_ne_temp out
  have hf3 : (fsRemove (fsSet (fsSet fs (tempPath out) "") (tempPath out) hw)
      (tempPath out)) out = fs out := by
    simp [fsRemove, fsSet, hne]
  refine ⟨?_, ?_, rfl, ?_, ?_, rfl, ?_, ?_⟩
  · simp [saveResult, fsSet, fsRemove]
  · simp [saveResult, fsSet, fsRemove, hne, Ne.symm hne]
  · simp only [saveResult]
    rw [apply_ite (fun f : FS => f out), hf3]
    cases hfs : fs out with
    | none => simp [hfs]
    | some v => simp [fsRemove]
  · simp only [saveResult]
    rw [apply_ite (fun f : FS => f (tempPath out))]
    have hr : ∀ g : FS, (fsRemove g out) (tempPath out) = g (tempPath out) := by
      intro g; simp [fsRemove, Ne.symm hne]
    rw [hr]
    simp [fsRemove, fsSet]
  · simp [saveTrace, fsSet, fsRemove, hne]
  · simp only [saveTrace]
    simp only [List.map_cons, List.map_nil, List.cons.injEq, and_true]
    refine ⟨by simp [fsSet, hne], by simp [fsSet, hne], by simp [fsRemove, fsSet, hne], ?_⟩
    rw [apply_ite (fun f : FS => f out), hf3]
    cases hfs : fs out with
    | none => simp [hfs]
    | some v => simp [fsRemove]

/-- C7 witness. -/
theorem C7_commit_behavior_witness :
    (saveResult fsEmpty "a.m3u" "body" .ok).1 "a.m3u" = some "body" :=
  (C7_commit_behavior fsEmpty "a.m3u" "body" "").1

end M3ulg
